import Mathlib

/-!
Verification development for the `async_easyapi` data-access layer.

The Python sources embedded here are:
  - `src/async_easyapi/dao.py` — `search_sql`, `BaseDao` (get/first/last/query/
    count/insert/update/delete), `BusinessBaseDao` (soft delete, audit
    stamping), `Transaction`;
  - `src/async_esayapi/dao.py` — the near-duplicate variant whose `query`
    method skips falsy filter values;
  - `src/async_easyapi/controller.py` — `ControllerMetaClass` facade;
  - `src/easyapi/dao.py` — the synchronous variant whose `BusinessBaseDao
    .formatter` strips audit columns.

Machine values, rows and SQL statements are modelled shallowly: a SQL
statement is a symbolic syntax tree (lists of predicates, page and order
clauses) and execution against an in-memory table models the external SQL
backend of spec §6.
-/

deriving instance DecidableEq for Except

namespace AsyncEasyapi

/-- Python `k.startswith(p)`: character-level prefix test (stated over the
character list of the string so that it evaluates by kernel reduction). -/
def strStartsWith (s p : String) : Bool := p.data.isPrefixOf s.data

/-- Python `k[n:]`: drop the first `n` characters. -/
def strDrop (s : String) (n : Nat) : String := String.mk (s.data.drop n)

/-- A SQL scalar value as it appears in filter mappings and rows:
`null` models Python `None` / SQL NULL, `time` models a
`datetime.datetime` timestamp (abstracted to a `Nat` tick). -/
inductive Value where
  | null : Value
  | int : Int → Value
  | str : String → Value
  | bool : Bool → Value
  | time : Nat → Value
deriving DecidableEq, Repr

/-- A value of a filter mapping before normalization: the Python code
accepts either a bare scalar or a list of scalars
(`if type(query[k]) is not list: values = [query[k]]`). -/
inductive FilterVal where
  | scalar : Value → FilterVal
  | list : List Value → FilterVal
deriving DecidableEq, Repr

/-- A table schema: the set of column names (`table.c`). -/
abbrev Table := List String

/-- A symbolic SQL predicate, the result of one `sql.where(...)` call.
`like c p` stands for `c LIKE p`; `search_sql` passes the pattern
`v + '%'` (prefix match). -/
inductive Pred where
  | gt : String → Value → Pred
  | gte : String → Value → Pred
  | lt : String → Value → Pred
  | lte : String → Value → Pred
  | like : String → Value → Pred
  | inList : String → List Value → Pred
  | eq : String → Value → Pred
deriving DecidableEq, Repr

/-- Failures that `search_sql` can raise: `attributeError c` models the
`AttributeError` raised by `getattr(table.c, c)` when column `c` does not
exist (the spec's `SchemaError`), `indexError` models `values[0]` on an
empty list. -/
inductive CompileError where
  | attributeError : String → CompileError
  | indexError : CompileError
deriving DecidableEq, Repr

/-- How a filter key is classified by the `if/elif` prefix chain of
`search_sql` (src/async_easyapi/dao.py lines 41-59). -/
inductive OpClass where
  | gt | gte | lt | lte | likeOp | inOp | plain
deriving DecidableEq, Repr

/-- The prefix classification itself, mirroring the order of the
`k.startswith(...)` tests in `search_sql`. -/
def opClass (k : String) : OpClass :=
  if strStartsWith k ("_gt_") then .gt
  else if strStartsWith k ("_gte_") then .gte
  else if strStartsWith k ("_lt_") then .lt
  else if strStartsWith k ("_lte_") then .lte
  else if strStartsWith k ("_like_") then .likeOp
  else if strStartsWith k ("_in_") then .inOp
  else .plain

/-- The column name a key resolves to: the key with its recognized prefix
stripped (`k[4:]`, `k[5:]`, `k[6:]`), or the key itself when unprefixed. -/
def stripKey (k : String) : String :=
  if strStartsWith k ("_gt_") then strDrop k 4
  else if strStartsWith k ("_gte_") then strDrop k 5
  else if strStartsWith k ("_lt_") then strDrop k 4
  else if strStartsWith k ("_lte_") then strDrop k 5
  else if strStartsWith k ("_like_") then strDrop k 6
  else if strStartsWith k ("_in_") then strDrop k 4
  else k

/-- Normalization of a filter value: a bare scalar is wrapped as a
one-element list (`values = [query[k]]`), a list is taken as is. -/
def asValues : FilterVal → List Value
  | .scalar v => [v]
  | .list vs => vs

/-- The `v + '%'` pattern that `search_sql` hands to `.like(...)`: a
trailing percent appended to a string value. (On a non-string value the
Python `+` would raise; that case is outside every claim and left as the
identity.) -/
def appendPercent : Value → Value
  | .str s => .str (s ++ ("%"))
  | v => v

/-- The `for v in values: sql = sql.where(getattr(table.c, col) OP v)`
loop shared by the `_gt_/_gte_/_lt_/_lte_/_like_` branches: the column
attribute is looked up once per element, so an empty list performs no
lookup and produces no predicate. -/
def compileComp (table : Table) (col : String) (mk : String → Value → Pred) :
    List Value → Except CompileError (List Pred)
  | [] => .ok []
  | v :: vs =>
    if table.contains col then
      (compileComp table col mk vs).map (fun ps => mk col v :: ps)
    else .error (.attributeError col)

/-- One iteration of the `search_sql` loop: dispatch on the key's prefix
(src/async_easyapi/dao.py lines 41-59). -/
def compileKey (table : Table) (k : String) (fv : FilterVal) :
    Except CompileError (List Pred) :=
  if strStartsWith k ("_gt_") then compileComp table (strDrop k 4) Pred.gt (asValues fv)
  else if strStartsWith k ("_gte_") then compileComp table (strDrop k 5) Pred.gte (asValues fv)
  else if strStartsWith k ("_lt_") then compileComp table (strDrop k 4) Pred.lt (asValues fv)
  else if strStartsWith k ("_lte_") then compileComp table (strDrop k 5) Pred.lte (asValues fv)
  else if strStartsWith k ("_like_") then
    compileComp table (strDrop k 6) (fun c v => Pred.like c (appendPercent v)) (asValues fv)
  else if strStartsWith k ("_in_") then
    if table.contains (strDrop k 4) then .ok [Pred.inList (strDrop k 4) (asValues fv)]
    else .error (.attributeError (strDrop k 4))
  else
    if table.contains k then
      match asValues fv with
      | [] => .error .indexError
      | v :: _ => .ok [Pred.eq k v]
    else .error (.attributeError k)

/-- The function `search_sql(sql, query, table)` (src/async_easyapi/dao.py lines
34-60): iterate over the filter mapping in order, appending each key's
`where` clauses; the first raised exception aborts the whole call. The
returned list denotes the conjunction (AND) of its predicates. -/
def search_sql (table : Table) : List (String × FilterVal) → Except CompileError (List Pred)
  | [] => .ok []
  | kv :: rest =>
    match compileKey table kv.1 kv.2 with
    | .error e => .error e
    | .ok ps => (search_sql table rest).map (fun rs => ps ++ rs)

/-- Spec-side per-key compilation, transcribing claim C1 / the spec §4.1
operator table word for word: a `_gt_/_gte_/_lt_/_lte_/_like_` key yields
one comparison predicate per element of its value list, `_in_` yields a
single membership predicate over the whole list, and an unrecognized key
yields one equality against the first element of the list, after a bare
scalar has been wrapped as a one-element list. -/
def specKeyPreds (k : String) (fv : FilterVal) : List Pred :=
  if strStartsWith k ("_gt_") then (asValues fv).map (Pred.gt (strDrop k 4))
  else if strStartsWith k ("_gte_") then (asValues fv).map (Pred.gte (strDrop k 5))
  else if strStartsWith k ("_lt_") then (asValues fv).map (Pred.lt (strDrop k 4))
  else if strStartsWith k ("_lte_") then (asValues fv).map (Pred.lte (strDrop k 5))
  else if strStartsWith k ("_like_") then
    (asValues fv).map (fun v => Pred.like (strDrop k 6) (appendPercent v))
  else if strStartsWith k ("_in_") then [Pred.inList (strDrop k 4) (asValues fv)]
  else [Pred.eq k ((asValues fv).headD Value.null)]

theorem compileComp_ok (table : Table) (col : String) (mk : String → Value → Pred)
    (vs : List Value) (h : table.contains col = true) :
    compileComp table col mk vs = .ok (vs.map (mk col)) := by
  have h2 : col ∈ table := by simpa using h
  induction vs with
  | nil => rfl
  | cons v vs ih => simp [compileComp, h2, ih, Except.map]

theorem compileKey_ok (table : Table) (k : String) (fv : FilterVal)
    (hcol : table.contains (stripKey k) = true)
    (hne : opClass k = OpClass.plain → asValues fv ≠ []) :
    compileKey table k fv = .ok (specKeyPreds k fv) := by
  unfold compileKey specKeyPreds stripKey opClass at *
  split_ifs at hcol hne ⊢
  · exact compileComp_ok _ _ _ _ hcol
  · exact compileComp_ok _ _ _ _ hcol
  · exact compileComp_ok _ _ _ _ hcol
  · exact compileComp_ok _ _ _ _ hcol
  · exact compileComp_ok _ _ _ _ hcol
  · simp [hcol]
  · cases hv : asValues fv with
    | nil => exact absurd hv (hne rfl)
    | cons v vs => simp [hcol, hv]

/-- C1: for every filter mapping whose keys all resolve to existing
columns (and whose unprefixed keys have nonempty value lists, so that
compilation succeeds), `search_sql` produces exactly the conjunction,
in key order, of the per-key predicate lists described by the spec's
operator table (`specKeyPreds`): per-element AND for comparison/like
prefixes, one IN over the whole list for `_in_`, equality against the
first element for unprefixed keys, scalars wrapped as one-element
lists. -/
theorem search_sql_matches_spec (table : Table) (query : List (String × FilterVal))
    (hcol : ∀ kv ∈ query, table.contains (stripKey kv.1) = true)
    (hne : ∀ kv ∈ query, opClass kv.1 = OpClass.plain → asValues kv.2 ≠ []) :
    search_sql table query =
      .ok ((query.map (fun kv => specKeyPreds kv.1 kv.2)).flatten) := by
  induction query with
  | nil => rfl
  | cons kv rest ih =>
    have h1 := hcol kv (List.mem_cons_self kv rest)
    have h2 := hne kv (List.mem_cons_self kv rest)
    have hk := compileKey_ok table kv.1 kv.2 h1 h2
    have ihr := ih (fun x hx => hcol x (List.mem_cons_of_mem kv hx))
      (fun x hx => hne x (List.mem_cons_of_mem kv hx))
    simp [search_sql, hk, ihr, Except.map]

/-- Witness for C1 at a concrete input: table `[x, y, z]`, query
`_gt_x: [5, 10]`, `_in_y: [1, 2, 3]`, `z: 7` (bare scalar). -/
theorem search_sql_matches_spec_witness :
    search_sql [("x"), ("y"), ("z")]
      [(("_gt_x"), FilterVal.list [Value.int 5, Value.int 10]),
       (("_in_y"), FilterVal.list [Value.int 1, Value.int 2, Value.int 3]),
       (("z"), FilterVal.scalar (Value.int 7))] =
      .ok [Pred.gt ("x") (Value.int 5), Pred.gt ("x") (Value.int 10),
           Pred.inList ("y") [Value.int 1, Value.int 2, Value.int 3],
           Pred.eq ("z") (Value.int 7)] := by
  rw [search_sql_matches_spec _ _ (by decide) (by decide)]
  decide

/-! ## Rows, dictionaries and SQL execution (the storage backend of spec §6) -/

/-- A row / Python dict: bindings in insertion order. -/
abbrev Row := List (String × Value)

/-- Python `d[k]` read / `d.get(k)`: the first binding of key `k`. -/
def rowGet (r : Row) (k : String) : Option Value :=
  (r.find? (fun kv => kv.1 == k)).map Prod.snd

/-- Python `d[k] = v`: replace the binding of `k` in place when present,
append it otherwise (dict insertion order). -/
def dictSet (r : Row) (k : String) (v : Value) : Row :=
  if r.any (fun kv => kv.1 == k) then
    r.map (fun kv => if kv.1 == k then (k, v) else kv)
  else r ++ [(k, v)]

/-- SQL `<` on typed scalars (comparisons across types or with NULL are
not true). -/
def valueLt : Value → Value → Bool
  | .int a, .int b => decide (a < b)
  | .time a, .time b => decide (a < b)
  | .str a, .str b => decide (a < b)
  | _, _ => false

/-- Whether a LIKE pattern ends in the `%` wildcard. -/
def endsInPercent (p : String) : Bool := p.data.getLast? == some ('%')

/-- Modelled from the spec (§6, storage backend): evaluation of one
symbolic predicate on one row by the external SQL engine. `eq c null`
models the `c IS NULL` comparison that SQLAlchemy emits for `== None`,
true exactly when the stored value is NULL. -/
def evalPred (r : Row) : Pred → Bool
  | .gt c v => match rowGet r c with | some w => valueLt v w | none => false
  | .gte c v => match rowGet r c with | some w => valueLt v w || decide (w = v) | none => false
  | .lt c v => match rowGet r c with | some w => valueLt w v | none => false
  | .lte c v => match rowGet r c with | some w => valueLt w v || decide (w = v) | none => false
  | .like c p =>
    match rowGet r c, p with
    | some (.str s), .str pat =>
      if endsInPercent pat then strStartsWith s (String.mk pat.data.dropLast)
      else decide (s = pat)
    | _, _ => false
  | .inList c vs => match rowGet r c with | some w => decide (w ∈ vs) | none => false
  | .eq c v => decide (rowGet r c = some v)

/-! ## Pagination, ordering, statements -/

/-- The optional `pager` dict: `_page` / `_per_page` entries. -/
structure Pager where
  page : Option Int := none
  perPage : Option Int := none
deriving DecidableEq, Repr

/-- The LIMIT/OFFSET part of the assembled query. -/
structure PageClause where
  limit : Option Int := none
  offset : Option Int := none
deriving DecidableEq, Repr

/-- The pagination block of `BaseDao.query` (src/async_easyapi/dao.py
lines 187-196), with Python truthiness of `if per_page:` / `if page:`
modelled as present-and-nonzero. -/
def applyPager (pager : Option Pager) : PageClause :=
  match pager with
  | none => { limit := none, offset := none }
  | some p =>
    let s1 : PageClause :=
      match p.perPage with
      | some pp =>
        if pp != 0 then { limit := some pp, offset := none }
        else { limit := none, offset := none }
      | none => { limit := none, offset := none }
    match p.page with
    | some pg =>
      if pg != 0 then
        match p.perPage with
        | none => { limit := some 30, offset := some ((pg - 1) * 30) }
        | some pp => { limit := s1.limit, offset := some ((pg - 1) * pp) }
      else s1
    | none => s1

/-- The optional `sorter` dict: `_order_by` / `_desc` entries. -/
structure Sorter where
  orderBy : Option String := none
  descend : Option Bool := none
deriving DecidableEq, Repr

/-- The ORDER BY part of the assembled query. -/
structure OrderClause where
  column : String
  descending : Bool
deriving DecidableEq, Repr

/-- The ordering block of `BaseDao.query` (lines 197-204):
`order_by = sorter.get('_order_by', 'id')`, `desc = sorter.get('_desc',
True)`, the column resolved by `getattr(table.c, order_by, table.c.id)`
— an unknown column silently falls back to `id`. -/
def applySorter (table : Table) (sorter : Option Sorter) : OrderClause :=
  let s := match sorter with | none => ({} : Sorter) | some s => s
  let ob := match s.orderBy with | none => ("id") | some c => c
  let d := match s.descend with | none => true | some b => b
  { column := if table.contains ob then ob else ("id"), descending := d }

/-- An UPDATE statement: conjunction of where-predicates plus SET clause. -/
structure UpdateStmt where
  wherePreds : List Pred
  setClause : List (String × Value)
deriving DecidableEq, Repr

/-- The statements the dao layer can emit. -/
inductive Stmt where
  | selectStmt : List Pred → PageClause → OrderClause → Stmt
  | insertStmt : Row → Stmt
  | updateStmt : UpdateStmt → Stmt
  | deleteStmt : List Pred → Stmt
deriving DecidableEq, Repr

/-- The `for key, value in where_dict.items(): if hasattr(table.c, key):
sql = sql.where(getattr(table.c, key) == value)` loop of
`BaseDao.update` / `BaseDao.delete` (src/async_easyapi/dao.py lines
263-265 and 284-286): keys that are not columns are silently skipped. -/
def updateWhere (table : Table) (whereDict : Row) : List Pred :=
  whereDict.foldl
    (fun acc kv => if table.contains kv.1 then acc ++ [Pred.eq kv.1 kv.2] else acc) []

/-! ## The dao operations -/

/-- Modelled from the spec: `easyapi_tools.util.type_to_json` is not under
`src/`; per spec §4.3 it converts native timestamp/decimal/binary values
into plain JSON-safe scalars (a timestamp becomes its ISO-8601 string,
abstracted here as the decimal rendering of the tick) and leaves
JSON-safe scalars unchanged. -/
def typeToJson : Value → Value
  | .time t => .str (Nat.repr t)
  | v => v

/-- Application of `type_to_json` to a whole record (`BaseDao.formatter`). -/
def typeToJsonRecord (r : Row) : Row := r.map (fun kv => (kv.1, typeToJson kv.2))

/-- A value `type_to_json` leaves unchanged. -/
def jsonSafe : Value → Bool
  | .time _ => false
  | _ => true

/-- The method `BaseDao.get` (src/async_easyapi/dao.py lines 150-168) run against an
in-memory table state: compile the filter, take the first matching row
(`res.first()`), return it through `formatter` (`type_to_json`), or
`None` when nothing matches. -/
def baseGetExec (table : Table) (ts : List Row) (query : List (String × FilterVal)) :
    Except CompileError (Option Row) :=
  (search_sql table query).map (fun ps =>
    (ts.find? (fun r => ps.all (evalPred r))).map typeToJsonRecord)

/-- The SELECT built by `BaseDao.query` (lines 170-204): filter (applied
only when the query dict is non-empty), then pagination, then ordering. -/
def baseQueryStmt (table : Table) (query : List (String × FilterVal))
    (pager : Option Pager) (sorter : Option Sorter) : Except CompileError Stmt :=
  if query.isEmpty then
    .ok (.selectStmt [] (applyPager pager) (applySorter table sorter))
  else
    (search_sql table query).map (fun ps =>
      .selectStmt ps (applyPager pager) (applySorter table sorter))

/-- The method `BusinessBaseDao.reformatter` (src/async_easyapi/dao.py lines
302-315): copy the mapping and, unless `unscoped` is set or the caller
already supplied `deleted_at`, inject `deleted_at = None`. Generic in the
value type because the same Python function is applied both to filter
mappings and to where/data dictionaries. -/
def businessReformatter {α : Type} (nullVal : α) (unscoped : Bool)
    (data : List (String × α)) : List (String × α) :=
  if unscoped = false && !(data.any (fun kv => kv.1 == ("deleted_at"))) then
    data ++ [(("deleted_at"), nullVal)]
  else data

/-- The UPDATE built by `BaseDao.update` when reached from the business
layer, so that both the where-dict and the data dict pass through
`BusinessBaseDao.reformatter` (lines 248-268). -/
def businessBaseUpdateU (table : Table) (unscoped : Bool) (whereDict data : Row) : UpdateStmt :=
  { wherePreds := updateWhere table (businessReformatter Value.null unscoped whereDict),
    setClause := businessReformatter Value.null unscoped data }

/-- The method `BusinessBaseDao.update` (lines 317-330): stamp `updated_at` and
`updated_by` into the data dict, then defer to `BaseDao.update`. -/
def businessUpdateU (table : Table) (unscoped : Bool) (whereDict data : Row)
    (modifyBy : String) (now : Nat) : UpdateStmt :=
  businessBaseUpdateU table unscoped whereDict
    (dictSet (dictSet data ("updated_at") (Value.time now)) ("updated_by") (Value.str modifyBy))

/-- The method `BusinessBaseDao.delete` (lines 332-346): a fresh data dict holding
`deleted_at = now()` and `updated_by = modify_by`, handed to
`BaseDao.update` — no DELETE statement is ever constructed. -/
def businessDeleteStmt (table : Table) (unscoped : Bool) (whereDict : Row)
    (modifyBy : String) (now : Nat) : Stmt :=
  .updateStmt (businessBaseUpdateU table unscoped whereDict
    [(("deleted_at"), Value.time now), (("updated_by"), Value.str modifyBy)])

/-- The method `BusinessBaseDao.insert` (lines 348-354): stamp `created_at` and
`created_by`, then `BaseDao.insert` reformats the data (injecting
`deleted_at = None` when not unscoped) and inserts the resulting row. -/
def businessInsertRow (data : Row) (modifyBy : String) (now : Nat) (unscoped : Bool) : Row :=
  businessReformatter Value.null unscoped
    (dictSet (dictSet data ("created_at") (Value.time now)) ("created_by") (Value.str modifyBy))

/-- Modelled from the spec (§6): the SET clause of an UPDATE applied to
one row, assignment by assignment. -/
def applySet (r : Row) (sets : List (String × Value)) : Row :=
  sets.foldl (fun acc kv => dictSet acc kv.1 kv.2) r

/-- Modelled from the spec (§6): the per-row effect of an UPDATE — a row
satisfying every where-predicate gets the SET clause applied, any other
row is untouched. -/
def updateRowFn (u : UpdateStmt) (r : Row) : Row :=
  if u.wherePreds.all (evalPred r) then applySet r u.setClause else r

/-- Modelled from the spec (§6): an UPDATE statement executed against an
in-memory table state. -/
def execUpdate (ts : List Row) (u : UpdateStmt) : List Row := ts.map (updateRowFn u)

/-- The method `BusinessBaseDao.get`: `BaseDao.get` with the query first passed
through `BusinessBaseDao.reformatter`, which injects the
`deleted_at = None` condition unless `unscoped` is set. -/
def businessGetExec (table : Table) (ts : List Row)
    (query : List (String × FilterVal)) (unscoped : Bool) :
    Except CompileError (Option Row) :=
  baseGetExec table ts (businessReformatter (FilterVal.scalar Value.null) unscoped query)

/-! ## Dictionary lemmas -/

theorem rowGet_dictSet (r : Row) (k : String) (v : Value) (k' : String) :
    rowGet (dictSet r k v) k' = if k' = k then some v else rowGet r k' := by
  unfold dictSet rowGet
  split_ifs with ha hk hk
  · subst hk
    rw [List.find?_map]
    have hp : ((fun kv : String × Value => kv.1 == k') ∘
        (fun kv : String × Value => if kv.1 == k' then (k', v) else kv)) =
        (fun kv : String × Value => kv.1 == k') := by
      funext kv
      by_cases hk1 : kv.1 = k' <;> simp [hk1]
    rw [hp]
    cases hf : r.find? (fun kv => kv.1 == k') with
    | none =>
      rw [List.find?_eq_none] at hf
      rcases (List.any_eq_true).mp ha with ⟨kv0, hkv0, hp0⟩
      exact absurd hp0 (hf kv0 hkv0)
    | some kv0 =>
      have h1 : kv0.1 = k' := by simpa using List.find?_some hf
      simp [h1]
  · rw [List.find?_map]
    have hp : ((fun kv : String × Value => kv.1 == k') ∘
        (fun kv : String × Value => if kv.1 == k then (k, v) else kv)) =
        (fun kv : String × Value => kv.1 == k') := by
      funext kv
      by_cases hk1 : kv.1 = k <;> simp [hk1]
    rw [hp]
    cases hf : r.find? (fun kv => kv.1 == k') with
    | none => rfl
    | some kv0 =>
      have h1 : kv0.1 = k' := by simpa using List.find?_some hf
      have h2 : ¬(kv0.1 = k) := by rw [h1]; exact hk
      simp [h2]
  · subst hk
    have hnone : r.find? (fun kv => kv.1 == k') = none := by
      rw [List.find?_eq_none]
      intro x hx
      simp only [Bool.not_eq_true, List.any_eq_false] at ha
      simpa using ha x hx
    simp [List.find?_append, hnone]
  · have hlast : List.find? (fun kv : String × Value => kv.1 == k') [(k, v)] = none := by
      simp [Ne.symm hk]
    simp [List.find?_append, hlast]

theorem rowGet_dictSet_self (r : Row) (k : String) (v : Value) :
    rowGet (dictSet r k v) k = some v := by
  simp [rowGet_dictSet]

theorem rowGet_dictSet_ne (r : Row) (k : String) (v : Value) (k' : String)
    (h : k' ≠ k) : rowGet (dictSet r k v) k' = rowGet r k' := by
  simp [rowGet_dictSet, h]

theorem keys_dictSet_subset (r : Row) (k : String) (v : Value) :
    ∀ x ∈ (dictSet r k v).map Prod.fst, x = k ∨ x ∈ r.map Prod.fst := by
  intro x hx
  unfold dictSet at hx
  split_ifs at hx with ha
  · rw [List.map_map] at hx
    rcases List.mem_map.mp hx with ⟨kv, hkv, heq⟩
    by_cases hk : kv.1 = k
    · left; rw [← heq]; simp [hk]
    · right; rw [← heq]; simp only [Function.comp_apply, hk]
      simp [hk]
      exact ⟨kv.2, by simpa using hkv⟩
  · rw [List.map_append] at hx
    rcases List.mem_append.mp hx with h1 | h1
    · right; exact h1
    · left; simpa using h1

theorem nodup_keys_dictSet (r : Row) (k : String) (v : Value)
    (h : (r.map Prod.fst).Nodup) : ((dictSet r k v).map Prod.fst).Nodup := by
  unfold dictSet
  split_ifs with ha
  · have heq : (r.map (fun kv => if kv.1 == k then (k, v) else kv)).map Prod.fst =
        r.map Prod.fst := by
      rw [List.map_map]
      apply List.map_congr_left
      intro kv _
      by_cases hk : kv.1 = k <;> simp [hk]
    rw [heq]; exact h
  · have hk : k ∉ r.map Prod.fst := by
      intro hmem
      rcases List.mem_map.mp hmem with ⟨kv0, hkv0, heq⟩
      simp only [Bool.not_eq_true, List.any_eq_false] at ha
      have := ha kv0 hkv0
      simp [heq] at this
    simp [List.nodup_append, hk, h]

theorem rowGet_applySet_notMem (r : Row) (sets : List (String × Value)) (f : String)
    (h : f ∉ sets.map Prod.fst) :
    rowGet (applySet r sets) f = rowGet r f := by
  induction sets generalizing r with
  | nil => rfl
  | cons kv rest ih =>
    simp only [List.map_cons, List.mem_cons, not_or] at h
    rw [show applySet r (kv :: rest) = applySet (dictSet r kv.1 kv.2) rest from rfl]
    rw [ih _ h.2, rowGet_dictSet_ne _ _ _ _ h.1]

theorem rowGet_applySet_mem (r : Row) (sets : List (String × Value)) (k : String) (v : Value)
    (hmem : (k, v) ∈ sets) (hnd : (sets.map Prod.fst).Nodup) :
    rowGet (applySet r sets) k = some v := by
  induction sets generalizing r with
  | nil => cases hmem
  | cons kv rest ih =>
    simp only [List.map_cons, List.nodup_cons] at hnd
    rcases List.mem_cons.mp hmem with hhd | htl
    · subst hhd
      rw [show applySet r ((k, v) :: rest) = applySet (dictSet r k v) rest from rfl]
      rw [rowGet_applySet_notMem _ _ _ hnd.1, rowGet_dictSet_self]
    · rw [show applySet r (kv :: rest) = applySet (dictSet r kv.1 kv.2) rest from rfl]
      exact ih _ htl hnd.2

theorem updateWhere_eq (table : Table) (wd : Row) :
    updateWhere table wd =
      (wd.filter (fun kv => table.contains kv.1)).map (fun kv => Pred.eq kv.1 kv.2) := by
  unfold updateWhere
  suffices hgen : ∀ acc : List Pred,
      wd.foldl (fun acc kv =>
        if table.contains kv.1 then acc ++ [Pred.eq kv.1 kv.2] else acc) acc =
      acc ++ (wd.filter (fun kv => table.contains kv.1)).map (fun kv => Pred.eq kv.1 kv.2) by
    simpa using hgen []
  induction wd with
  | nil => intro acc; simp
  | cons kv rest ih =>
    intro acc
    rw [List.foldl_cons, ih, List.filter_cons]
    by_cases hc : table.contains kv.1 = true
    · have hm : kv.1 ∈ table := by simpa using hc
      simp [hm]
    · have hm : kv.1 ∉ table := by simpa using hc
      simp [hm]

/-! ## C2 — pagination -/

/-- C2: pagination in `BaseDao.query`, for positive page numbers and page
sizes: `per_page` alone gives `LIMIT per_page` and no offset; `page`
alone gives `OFFSET (page-1)*30 LIMIT 30`; both give
`OFFSET (page-1)*per_page LIMIT per_page`; no pager gives neither a
limit nor an offset. -/
theorem applyPager_spec (pg pp : Int) (hpg : 0 < pg) (hpp : 0 < pp) :
    applyPager none = { limit := none, offset := none } ∧
    applyPager (some { page := none, perPage := some pp }) =
      { limit := some pp, offset := none } ∧
    applyPager (some { page := some pg, perPage := none }) =
      { limit := some 30, offset := some ((pg - 1) * 30) } ∧
    applyPager (some { page := some pg, perPage := some pp }) =
      { limit := some pp, offset := some ((pg - 1) * pp) } := by
  have h1 : (pp != 0) = true := by simp; omega
  have h2 : (pg != 0) = true := by simp; omega
  refine ⟨rfl, ?_, ?_, ?_⟩ <;> simp [applyPager, h1, h2]

/-- Witness for C2 at `page = 3`, `per_page = 10`: offset 20, limit 10. -/
theorem applyPager_spec_witness :
    applyPager (some { page := some 3, perPage := some 10 }) =
      { limit := some 10, offset := some 20 } := by
  have h := applyPager_spec 3 10 (by decide) (by decide)
  rw [h.2.2.2]; decide

/-! ## C7 — ordering -/

/-- C7: ordering in `BaseDao.query`: no sorter gives `ORDER BY id DESC`;
a sorter with `_desc = False` and a known column orders ascending by that
column; an `_order_by` naming an unknown column falls back to the `id`
column instead of failing. -/
theorem applySorter_spec (table : Table) (ob bad : String) (b : Bool)
    (hin : table.contains ob = true) (hout : table.contains bad = false) :
    applySorter table none = { column := ("id"), descending := true } ∧
    applySorter table (some { orderBy := some ob, descend := some false }) =
      { column := ob, descending := false } ∧
    applySorter table (some { orderBy := some bad, descend := some b }) =
      { column := ("id"), descending := b } := by
  have hin2 : ob ∈ table := by simpa using hin
  have hout2 : bad ∉ table := by simpa using hout
  refine ⟨?_, ?_, ?_⟩ <;> simp [applySorter, hin2, hout2]

/-- Witness for C7: table `[id, name]`, sorter `{order_by: name,
desc: false}` gives `ORDER BY name ASC`. -/
theorem applySorter_spec_witness :
    applySorter [("id"), ("name")]
      (some { orderBy := some ("name"), descend := some false }) =
      { column := ("name"), descending := false } :=
  (applySorter_spec [("id"), ("name")] ("name") ("zzz") true
    (by decide) (by decide)).2.1

/-! ## Plain keys, reformatter injection -/

theorem stripKey_plain (k : String) (h : opClass k = OpClass.plain) : stripKey k = k := by
  unfold opClass at h
  unfold stripKey
  split_ifs at h ⊢
  simp_all

theorem specKeyPreds_plain (k : String) (fv : FilterVal) (h : opClass k = OpClass.plain) :
    specKeyPreds k fv = [Pred.eq k ((asValues fv).headD Value.null)] := by
  unfold opClass at h
  unfold specKeyPreds
  split_ifs at h ⊢
  simp_all

theorem businessReformatter_inject {α : Type} (nv : α) (d : List (String × α))
    (h : ("deleted_at") ∉ d.map Prod.fst) :
    businessReformatter nv false d = d ++ [(("deleted_at"), nv)] := by
  unfold businessReformatter
  have ha : d.any (fun kv => kv.1 == ("deleted_at")) = false := by
    rw [List.any_eq_false]
    intro x hx
    simp only [beq_iff_eq]
    intro hx1
    exact h (List.mem_map.mpr ⟨x, hx, hx1⟩)
  simp [ha]

theorem businessReformatter_keys {α : Type} (nv : α) (u : Bool) (d : List (String × α)) :
    ∀ x ∈ (businessReformatter nv u d).map Prod.fst,
      x = ("deleted_at") ∨ x ∈ d.map Prod.fst := by
  intro x hx
  unfold businessReformatter at hx
  split_ifs at hx with hcond
  · rw [List.map_append] at hx
    rcases List.mem_append.mp hx with h1 | h1
    · exact Or.inr h1
    · exact Or.inl (by simpa using h1)
  · exact Or.inr hx

theorem businessReformatter_nodup {α : Type} (nv : α) (u : Bool) (d : List (String × α))
    (h : (d.map Prod.fst).Nodup) :
    ((businessReformatter nv u d).map Prod.fst).Nodup := by
  unfold businessReformatter
  split_ifs with hcond
  · simp only [Bool.and_eq_true, Bool.not_eq_true'] at hcond
    have hda : ("deleted_at") ∉ d.map Prod.fst := by
      intro hmem
      rcases List.mem_map.mp hmem with ⟨kv0, hkv0, heq⟩
      have := List.any_eq_false.mp hcond.2 kv0 hkv0
      simp [heq] at this
    simp [List.nodup_append, hda, h]
  · exact h

theorem flatten_singletons {α β : Type} (l : List α) (g : α → β) :
    (l.map (fun x => [g x])).flatten = l.map g := by
  induction l with
  | nil => rfl
  | cons x xs ih => simp [ih]

/-- A filter mapping all of whose keys are unprefixed known columns with
scalar values compiles to the corresponding equality conjunction. -/
theorem search_sql_plain_scalar (table : Table) (wd : Row)
    (hall : ∀ kv ∈ wd, opClass kv.1 = OpClass.plain ∧ kv.1 ∈ table) :
    search_sql table (wd.map (fun kv => (kv.1, FilterVal.scalar kv.2))) =
      .ok (wd.map (fun kv => Pred.eq kv.1 kv.2)) := by
  rw [search_sql_matches_spec]
  · rw [List.map_map]
    have hmapeq : wd.map ((fun kv : String × FilterVal => specKeyPreds kv.1 kv.2) ∘
        (fun kv : String × Value => (kv.1, FilterVal.scalar kv.2))) =
        wd.map (fun kv => [Pred.eq kv.1 kv.2]) := by
      apply List.map_congr_left
      intro kv hkv
      simp only [Function.comp_apply]
      rw [specKeyPreds_plain _ _ (hall kv hkv).1]
      rfl
    rw [hmapeq, flatten_singletons]
  · intro kv hkv
    rcases List.mem_map.mp hkv with ⟨kv0, hkv0, heq⟩
    rw [← heq]
    have h1 := (hall kv0 hkv0).1
    have h2 := (hall kv0 hkv0).2
    show table.contains (stripKey kv0.1) = true
    rw [stripKey_plain _ h1]
    simpa using h2
  · intro kv hkv _
    rcases List.mem_map.mp hkv with ⟨kv0, hkv0, heq⟩
    rw [← heq]
    simp [asValues]

/-! ## C4 — soft delete -/

/-- The table state after running the UPDATE built by
`BusinessBaseDao.delete` against an in-memory table. -/
def businessDeleteExec (table : Table) (ts : List Row) (unscoped : Bool)
    (whereDict : Row) (modifyBy : String) (now : Nat) : List Row :=
  execUpdate ts (businessBaseUpdateU table unscoped whereDict
    [(("deleted_at"), Value.time now), (("updated_by"), Value.str modifyBy)])

/-- C4: the business delete never builds a DELETE statement — it is an
UPDATE whose SET clause stamps `deleted_at = now()` and
`updated_by = modify_by`; and a subsequent business `get` with the same
(plain-key, known-column) where-condition and no `unscoped` flag returns
`None`, because the read injects the `deleted_at IS NULL` condition that
the freshly stamped rows no longer satisfy. -/
theorem businessDelete_is_soft (table : Table) (ts : List Row) (whereDict : Row)
    (modifyBy : String) (now : Nat)
    (hall : ∀ kv ∈ whereDict, opClass kv.1 = OpClass.plain ∧ kv.1 ∈ table)
    (hwdel : ("deleted_at") ∉ whereDict.map Prod.fst)
    (hdelcol : ("deleted_at") ∈ table) :
    (∃ u, businessDeleteStmt table false whereDict modifyBy now = Stmt.updateStmt u ∧
      rowGet u.setClause ("deleted_at") = some (Value.time now) ∧
      rowGet u.setClause ("updated_by") = some (Value.str modifyBy)) ∧
    businessGetExec table (businessDeleteExec table ts false whereDict modifyBy now)
      (whereDict.map (fun kv => (kv.1, FilterVal.scalar kv.2))) false = .ok none := by
  have hSref : businessReformatter Value.null false
      [(("deleted_at"), Value.time now), (("updated_by"), Value.str modifyBy)] =
      [(("deleted_at"), Value.time now), (("updated_by"), Value.str modifyBy)] := by
    simp [businessReformatter]
  have hP : updateWhere table (businessReformatter Value.null false whereDict) =
      whereDict.map (fun kv => Pred.eq kv.1 kv.2) ++ [Pred.eq ("deleted_at") Value.null] := by
    rw [businessReformatter_inject _ _ hwdel, updateWhere_eq]
    rw [List.filter_append, List.map_append]
    congr 1
    · have hfix : whereDict.filter (fun kv => table.contains kv.1) = whereDict := by
        rw [List.filter_eq_self]
        intro kv hkv
        simpa using (hall kv hkv).2
      rw [hfix]
    · simp [List.filter_cons, hdelcol]
  constructor
  · refine ⟨businessBaseUpdateU table false whereDict
      [(("deleted_at"), Value.time now), (("updated_by"), Value.str modifyBy)], rfl, ?_, ?_⟩
    · simp only [businessBaseUpdateU]
      rw [hSref]
      simp [rowGet]
    · simp only [businessBaseUpdateU]
      rw [hSref]
      simp [rowGet]
  · have hqdel : ("deleted_at") ∉
        ((whereDict.map (fun kv => (kv.1, FilterVal.scalar kv.2))).map Prod.fst) := by
      rw [List.map_map]
      intro hmem
      apply hwdel
      rcases List.mem_map.mp hmem with ⟨kv, hkv, heq⟩
      exact List.mem_map.mpr ⟨kv, hkv, heq⟩
    have hall2 : ∀ kv ∈ whereDict ++ [(("deleted_at"), Value.null)],
        opClass kv.1 = OpClass.plain ∧ kv.1 ∈ table := by
      intro kv hkv
      rcases List.mem_append.mp hkv with h1 | h1
      · exact hall kv h1
      · have heq : kv = (("deleted_at"), Value.null) := by simpa using h1
        subst heq
        exact ⟨by decide, hdelcol⟩
    have hQ := search_sql_plain_scalar table (whereDict ++ [(("deleted_at"), Value.null)]) hall2
    simp only [List.map_append, List.map_cons, List.map_nil] at hQ
    have hnone : (execUpdate ts (businessBaseUpdateU table false whereDict
        [(("deleted_at"), Value.time now), (("updated_by"), Value.str modifyBy)])).find?
        (fun r => ((whereDict.map (fun kv => Pred.eq kv.1 kv.2) ++
          [Pred.eq ("deleted_at") Value.null]).all (evalPred r))) = none := by
      rw [List.find?_eq_none]
      intro r' hr'
      unfold execUpdate at hr'
      rcases List.mem_map.mp hr' with ⟨r, _, hrr⟩
      subst hrr
      unfold updateRowFn
      split_ifs with hm
      · simp only [businessBaseUpdateU]
        rw [hSref]
        have hget : rowGet (applySet r
            [(("deleted_at"), Value.time now), (("updated_by"), Value.str modifyBy)])
            ("deleted_at") = some (Value.time now) :=
          rowGet_applySet_mem r
            [(("deleted_at"), Value.time now), (("updated_by"), Value.str modifyBy)]
            ("deleted_at") (Value.time now) (by simp) (by simp)
        simp [List.all_append, evalPred, hget]
      · simp only [businessBaseUpdateU] at hm
        rw [hP] at hm
        simpa using hm
    unfold businessGetExec baseGetExec businessDeleteExec
    rw [businessReformatter_inject _ _ hqdel]
    rw [hQ]
    simp only [Except.map]
    rw [hnone]
    rfl

/-- Witness for C4: one row matching `x = 5`; after the business delete,
the business get on `x = 5` returns `None`. -/
theorem businessDelete_is_soft_witness :
    businessGetExec [("id"), ("x"), ("deleted_at"), ("updated_by")]
      (businessDeleteExec [("id"), ("x"), ("deleted_at"), ("updated_by")]
        [[(("id"), Value.int 1), (("x"), Value.int 5),
          (("deleted_at"), Value.null), (("updated_by"), Value.str (""))]]
        false [(("x"), Value.int 5)] ("alice") 100)
      [(("x"), FilterVal.scalar (Value.int 5))] false = .ok none := by
  have h := businessDelete_is_soft [("id"), ("x"), ("deleted_at"), ("updated_by")]
    [[(("id"), Value.int 1), (("x"), Value.int 5),
      (("deleted_at"), Value.null), (("updated_by"), Value.str (""))]]
    [(("x"), Value.int 5)] ("alice") 100 (by decide) (by decide) (by decide)
  exact h.2

/-! ## C8 — audit stamping -/

theorem rowGet_businessReformatter_ne (nv : Value) (u : Bool) (d : Row) (k : String)
    (h : k ≠ ("deleted_at")) :
    rowGet (businessReformatter nv u d) k = rowGet d k := by
  unfold businessReformatter
  split_ifs with hc
  · unfold rowGet
    rw [List.find?_append]
    cases hf : d.find? (fun kv => kv.1 == k) with
    | none => simp [hf, Ne.symm h]
    | some kv0 => simp [hf]
  · rfl

theorem dictSet_mem_self (r : Row) (k : String) (v : Value) : (k, v) ∈ dictSet r k v := by
  unfold dictSet
  split_ifs with ha
  · rcases List.any_eq_true.mp ha with ⟨kv0, h0, hp⟩
    refine List.mem_map.mpr ⟨kv0, h0, ?_⟩
    simp [show kv0.1 = k by simpa using hp]
  · simp

theorem dictSet_mem_ne (r : Row) (k : String) (v : Value) (k' : String) (v' : Value)
    (hmem : (k, v) ∈ r) (h : k ≠ k') : (k, v) ∈ dictSet r k' v' := by
  unfold dictSet
  split_ifs with ha
  · exact List.mem_map.mpr ⟨(k, v), hmem, by simp [h]⟩
  · exact List.mem_append_left _ hmem

theorem businessReformatter_mem (nv : Value) (u : Bool) (d : Row) (kv : String × Value)
    (hmem : kv ∈ d) : kv ∈ businessReformatter nv u d := by
  unfold businessReformatter
  split_ifs with ha
  · exact List.mem_append_left _ hmem
  · exact hmem

/-- C8: the business insert stores a row whose `created_at` is the
(non-null) current timestamp and whose `created_by` is the supplied
`modify_by`; the business update stamps `updated_at`/`updated_by` on
every matched row and leaves `created_at` — and every other field not
named in `data` — unchanged on every row. -/
theorem business_audit_stamping (table : Table) (data whereDict : Row) (r : Row)
    (modifyBy : String) (now : Nat)
    (h1 : (data.map Prod.fst).Nodup)
    (hca : ("created_at") ∉ data.map Prod.fst)
    (hwdel : ("deleted_at") ∉ whereDict.map Prod.fst)
    (hdelcol : ("deleted_at") ∈ table) :
    (rowGet (businessInsertRow data modifyBy now false) ("created_at") =
        some (Value.time now) ∧
      Value.time now ≠ Value.null ∧
      rowGet (businessInsertRow data modifyBy now false) ("created_by") =
        some (Value.str modifyBy)) ∧
    (rowGet (updateRowFn (businessUpdateU table false whereDict data modifyBy now) r)
        ("created_at") = rowGet r ("created_at")) ∧
    (∀ f, f ∉ data.map Prod.fst → f ≠ ("updated_at") → f ≠ ("updated_by") →
      rowGet (updateRowFn (businessUpdateU table false whereDict data modifyBy now) r) f =
        rowGet r f) ∧
    ((businessUpdateU table false whereDict data modifyBy now).wherePreds.all
        (evalPred r) = true →
      rowGet (updateRowFn (businessUpdateU table false whereDict data modifyBy now) r)
          ("updated_at") = some (Value.time now) ∧
      rowGet (updateRowFn (businessUpdateU table false whereDict data modifyBy now) r)
          ("updated_by") = some (Value.str modifyBy)) := by
  have hinsert :
      rowGet (businessInsertRow data modifyBy now false) ("created_at") =
        some (Value.time now) ∧
      rowGet (businessInsertRow data modifyBy now false) ("created_by") =
        some (Value.str modifyBy) := by
    constructor
    · unfold businessInsertRow
      rw [rowGet_businessReformatter_ne _ _ _ _ (by decide)]
      rw [rowGet_dictSet_ne _ _ _ _ (by decide), rowGet_dictSet_self]
    · unfold businessInsertRow
      rw [rowGet_businessReformatter_ne _ _ _ _ (by decide)]
      rw [rowGet_dictSet_self]
  -- the stamped data dict of the business update
  have hndD2 : ((dictSet (dictSet data ("updated_at") (Value.time now)) ("updated_by")
      (Value.str modifyBy)).map Prod.fst).Nodup :=
    nodup_keys_dictSet _ _ _ (nodup_keys_dictSet _ _ _ h1)
  have hndS : ((businessReformatter Value.null false
      (dictSet (dictSet data ("updated_at") (Value.time now)) ("updated_by")
        (Value.str modifyBy))).map Prod.fst).Nodup :=
    businessReformatter_nodup _ _ _ hndD2
  have hSkeys : ∀ x ∈ (businessReformatter Value.null false
      (dictSet (dictSet data ("updated_at") (Value.time now)) ("updated_by")
        (Value.str modifyBy))).map Prod.fst,
      x = ("deleted_at") ∨ x = ("updated_by") ∨ x = ("updated_at") ∨
        x ∈ data.map Prod.fst := by
    intro x hx
    rcases businessReformatter_keys _ _ _ x hx with h | h
    · exact Or.inl h
    · rcases keys_dictSet_subset _ _ _ x h with h2 | h2
      · exact Or.inr (Or.inl h2)
      · rcases keys_dictSet_subset _ _ _ x h2 with h3 | h3
        · exact Or.inr (Or.inr (Or.inl h3))
        · exact Or.inr (Or.inr (Or.inr h3))
  have hmemP : Pred.eq ("deleted_at") Value.null ∈
      (businessUpdateU table false whereDict data modifyBy now).wherePreds := by
    show Pred.eq ("deleted_at") Value.null ∈
      updateWhere table (businessReformatter Value.null false whereDict)
    rw [businessReformatter_inject _ _ hwdel, updateWhere_eq]
    refine List.mem_map.mpr ⟨(("deleted_at"), Value.null), ?_, rfl⟩
    refine List.mem_filter.mpr ⟨List.mem_append_right _ (by simp), by simpa using hdelcol⟩
  have hframe : ∀ f, f ∉ data.map Prod.fst → f ≠ ("updated_at") → f ≠ ("updated_by") →
      rowGet (updateRowFn (businessUpdateU table false whereDict data modifyBy now) r) f =
        rowGet r f := by
    intro f hf hf1 hf2
    unfold updateRowFn
    split_ifs with hm
    · by_cases hfd : f = ("deleted_at")
      · subst hfd
        have hdaD2 : ("deleted_at") ∉
            ((dictSet (dictSet data ("updated_at") (Value.time now)) ("updated_by")
              (Value.str modifyBy)).map Prod.fst) := by
          intro hmem
          rcases keys_dictSet_subset _ _ _ _ hmem with h2 | h2
          · exact absurd h2 (by decide)
          · rcases keys_dictSet_subset _ _ _ _ h2 with h3 | h3
            · exact absurd h3 (by decide)
            · exact hf h3
        have hS := businessReformatter_inject Value.null
          (dictSet (dictSet data ("updated_at") (Value.time now)) ("updated_by")
            (Value.str modifyBy)) hdaD2
        have hrowS : rowGet (applySet r
            ((businessUpdateU table false whereDict data modifyBy now).setClause))
            ("deleted_at") = some Value.null := by
          show rowGet (applySet r (businessReformatter Value.null false _)) _ = _
          rw [hS]
          exact rowGet_applySet_mem _ _ _ _ (List.mem_append_right _ (by simp))
            (by rw [← hS]; exact hndS)
        have hrowr : rowGet r ("deleted_at") = some Value.null := by
          have := List.all_eq_true.mp hm _ hmemP
          simpa [evalPred] using this
        rw [hrowS, hrowr]
      · have hfS : f ∉ ((businessUpdateU table false whereDict data modifyBy now).setClause).map
            Prod.fst := by
          intro hmem
          rcases hSkeys f hmem with h | h | h | h
          · exact hfd h
          · exact hf2 h
          · exact hf1 h
          · exact hf h
        exact rowGet_applySet_notMem _ _ _ hfS
    · rfl
  refine ⟨⟨hinsert.1, by simp, hinsert.2⟩, ?_, hframe, ?_⟩
  · exact hframe ("created_at") hca (by decide) (by decide)
  · intro hm
    unfold updateRowFn
    rw [if_pos hm]
    constructor
    · refine rowGet_applySet_mem _ _ _ _ ?_ hndS
      refine businessReformatter_mem _ _ _ _ ?_
      exact dictSet_mem_ne _ _ _ _ _ (dictSet_mem_self _ _ _) (by decide)
    · refine rowGet_applySet_mem _ _ _ _ ?_ hndS
      exact businessReformatter_mem _ _ _ _ (dictSet_mem_self _ _ _)

/-- Witness for C8: a one-field data dict `{name: bob}`, a where-dict
`{id: 1}`, and a row that matches the update's where-condition. -/
theorem business_audit_stamping_witness :
    rowGet (businessInsertRow [(("name"), Value.str ("bob"))] ("alice") 7 false)
      ("created_at") = some (Value.time 7) ∧
    rowGet (updateRowFn (businessUpdateU [("id"), ("name"), ("deleted_at"),
        ("updated_at"), ("updated_by")] false [(("id"), Value.int 1)]
        [(("name"), Value.str ("bob"))] ("alice") 7)
        [(("id"), Value.int 1), (("name"), Value.str ("ann")),
         (("created_at"), Value.time 3), (("deleted_at"), Value.null)])
      ("created_at") = some (Value.time 3) := by
  have h := business_audit_stamping [("id"), ("name"), ("deleted_at"),
      ("updated_at"), ("updated_by")] [(("name"), Value.str ("bob"))]
      [(("id"), Value.int 1)]
      [(("id"), Value.int 1), (("name"), Value.str ("ann")),
       (("created_at"), Value.time 3), (("deleted_at"), Value.null)]
      ("alice") 7 (by decide) (by decide) (by decide) (by decide)
  refine ⟨h.1.1, ?_⟩
  rw [h.2.1]
  decide

/-! ## C3 — unknown columns: strict reads, lenient update/delete -/

theorem compileComp_error (table : Table) (col : String) (mk : String → Value → Pred)
    (vs : List Value) (e : CompileError)
    (h : compileComp table col mk vs = .error e) :
    e = .attributeError col ∧ table.contains col = false := by
  induction vs with
  | nil => simp [compileComp] at h
  | cons v vs ih =>
    unfold compileComp at h
    split_ifs at h with hc
    · cases hcc : compileComp table col mk vs with
      | error e2 =>
        rw [hcc] at h
        simp only [Except.map, Except.error.injEq] at h
        subst h
        exact ih hcc
      | ok l =>
        rw [hcc] at h
        simp [Except.map] at h
    · simp only [Except.error.injEq] at h
      exact ⟨h.symm, by simpa using hc⟩

theorem compileKey_error_cases (table : Table) (k : String) (fv : FilterVal)
    (e : CompileError) (h : compileKey table k fv = .error e) :
    (e = .attributeError (stripKey k) ∧ table.contains (stripKey k) = false) ∨
    (opClass k = OpClass.plain ∧ asValues fv = []) := by
  unfold compileKey stripKey opClass at *
  split_ifs at h ⊢
  all_goals (first
    | exact Or.inl (compileComp_error _ _ _ _ _ h)
    | (cases hv : asValues fv with
        | nil => simp_all
        | cons v vs => simp_all))

theorem compileKey_attrError (table : Table) (k : String) (fv : FilterVal)
    (hbad : table.contains (stripKey k) = false)
    (hreach : opClass k = OpClass.inOp ∨ opClass k = OpClass.plain ∨ asValues fv ≠ []) :
    compileKey table k fv = .error (.attributeError (stripKey k)) := by
  unfold compileKey stripKey opClass at *
  split_ifs at hbad hreach ⊢
  · rcases hreach with h | h | h
    · simp at h
    · simp at h
    · cases hv : asValues fv with
      | nil => exact absurd hv h
      | cons v vs =>
        have hb : strDrop k 4 ∉ table := by simpa using hbad
        simp [compileComp, hb]
  · rcases hreach with h | h | h
    · simp at h
    · simp at h
    · cases hv : asValues fv with
      | nil => exact absurd hv h
      | cons v vs =>
        have hb : strDrop k 5 ∉ table := by simpa using hbad
        simp [compileComp, hb]
  · rcases hreach with h | h | h
    · simp at h
    · simp at h
    · cases hv : asValues fv with
      | nil => exact absurd hv h
      | cons v vs =>
        have hb : strDrop k 4 ∉ table := by simpa using hbad
        simp [compileComp, hb]
  · rcases hreach with h | h | h
    · simp at h
    · simp at h
    · cases hv : asValues fv with
      | nil => exact absurd hv h
      | cons v vs =>
        have hb : strDrop k 5 ∉ table := by simpa using hbad
        simp [compileComp, hb]
  · rcases hreach with h | h | h
    · simp at h
    · simp at h
    · cases hv : asValues fv with
      | nil => exact absurd hv h
      | cons v vs =>
        have hb : strDrop k 6 ∉ table := by simpa using hbad
        simp [compileComp, hb]
  all_goals simp_all

theorem search_sql_attrError (table : Table) (query : List (String × FilterVal))
    (k : String) (fv : FilterVal)
    (hmem : (k, fv) ∈ query)
    (hbad : table.contains (stripKey k) = false)
    (hreach : opClass k = OpClass.inOp ∨ opClass k = OpClass.plain ∨ asValues fv ≠ [])
    (hnoIdx : ∀ kv ∈ query, opClass kv.1 = OpClass.plain → asValues kv.2 ≠ []) :
    ∃ k' fv', (k', fv') ∈ query ∧ table.contains (stripKey k') = false ∧
      search_sql table query = .error (.attributeError (stripKey k')) := by
  induction query with
  | nil => cases hmem
  | cons kv rest ih =>
    cases hck : compileKey table kv.1 kv.2 with
    | ok ps =>
      have hmem2 : (k, fv) ∈ rest := by
        rcases List.mem_cons.mp hmem with he | ht
        · exfalso
          have := compileKey_attrError table k fv hbad hreach
          rw [← he] at hck
          rw [this] at hck
          simp at hck
        · exact ht
      obtain ⟨k', fv', hk', hbad', hres⟩ :=
        ih hmem2 (fun x hx => hnoIdx x (List.mem_cons_of_mem kv hx))
      refine ⟨k', fv', List.mem_cons_of_mem kv hk', hbad', ?_⟩
      simp [search_sql, hck, hres, Except.map]
    | error e =>
      rcases compileKey_error_cases table kv.1 kv.2 e hck with ⟨he, hb⟩ | ⟨hpl, hemp⟩
      · refine ⟨kv.1, kv.2, List.mem_cons_self kv rest, hb, ?_⟩
        simp [search_sql, hck, he]
      · exact absurd hemp (hnoIdx kv (List.mem_cons_self kv rest) hpl)

/-- Counterexample to C3 as frozen: the unknown-column key `_gt_bad`
carrying an empty value list never evaluates the column attribute (the
`for v in values` loop body never runs), so the read succeeds instead of
raising the promised failure. -/
theorem unknown_column_read_counterexample :
    baseGetExec [("id")] [[(("id"), Value.int 1)]]
      [(("_gt_bad"), FilterVal.list [])] = .ok (some [(("id"), Value.int 1)]) := by
  decide

/-- C3 (amended): a filter key whose stripped remainder is not a column
makes the read fail with the column-lookup failure (`SchemaError`) naming
the stripped remainder of an offending key — provided the key's column
lookup is reached at all, i.e. its prefix is `_in_` or unrecognized, or
its value list is nonempty (and no earlier unprefixed key carries an
empty list, which would raise `IndexError` first); the same unknown key
in the where-dict of update/delete is silently skipped: the where clause
is built from exactly the keys that are columns, and no failure is
possible. -/
theorem unknown_column_read_vs_update (table : Table) (ts : List Row)
    (query : List (String × FilterVal)) (pager : Option Pager) (sorter : Option Sorter)
    (whereDict : Row) (k : String) (fv : FilterVal)
    (hmem : (k, fv) ∈ query)
    (hbad : table.contains (stripKey k) = false)
    (hreach : opClass k = OpClass.inOp ∨ opClass k = OpClass.plain ∨ asValues fv ≠ [])
    (hnoIdx : ∀ kv ∈ query, opClass kv.1 = OpClass.plain → asValues kv.2 ≠ []) :
    (∃ k' fv', (k', fv') ∈ query ∧ table.contains (stripKey k') = false ∧
      baseGetExec table ts query = .error (.attributeError (stripKey k')) ∧
      baseQueryStmt table query pager sorter = .error (.attributeError (stripKey k'))) ∧
    updateWhere table whereDict =
      (whereDict.filter (fun kv => table.contains kv.1)).map
        (fun kv => Pred.eq kv.1 kv.2) := by
  obtain ⟨k', fv', hk', hbad', hres⟩ :=
    search_sql_attrError table query k fv hmem hbad hreach hnoIdx
  have hne : query.isEmpty = false := by
    cases query with
    | nil => cases hmem
    | cons a b => rfl
  refine ⟨⟨k', fv', hk', hbad', ?_, ?_⟩, updateWhere_eq table whereDict⟩
  · unfold baseGetExec
    rw [hres]
    rfl
  · unfold baseQueryStmt
    rw [hne]
    simp only [Bool.false_eq_true, if_false]
    rw [hres]
    rfl

/-- Witness for C3 (amended): the unknown plain key `bad` fails the read
with the lookup failure naming `bad`, while `update` with the same
where-dict just drops it. -/
theorem unknown_column_read_vs_update_witness :
    (∃ k' fv', (k', fv') ∈ [(("bad"), FilterVal.scalar (Value.int 1))] ∧
      List.contains [("id")] (stripKey k') = false ∧
      baseGetExec [("id")] [] [(("bad"), FilterVal.scalar (Value.int 1))] =
        .error (.attributeError (stripKey k')) ∧
      baseQueryStmt [("id")] [(("bad"), FilterVal.scalar (Value.int 1))] none none =
        .error (.attributeError (stripKey k'))) ∧
    updateWhere [("id")] [(("bad"), Value.int 1)] =
      (([(("bad"), Value.int 1)] : Row).filter
        (fun kv => List.contains [("id")] kv.1)).map (fun kv => Pred.eq kv.1 kv.2) :=
  unknown_column_read_vs_update [("id")] [] [(("bad"), FilterVal.scalar (Value.int 1))]
    none none [(("bad"), Value.int 1)] ("bad") (FilterVal.scalar (Value.int 1))
    (by decide) (by decide) (by decide) (by decide)

/-! ## C9 — empty / None value lists -/

/-- One key of the inline filter loop of `DaoMetaClass.query` in the
`async_esayapi` variant (src/async_esayapi/dao.py lines 82-98): same
prefix dispatch, but the unprefixed branch emits `IN` over the whole
list and `.like(v)` passes the raw pattern. -/
def esayapiCompileKey (table : Table) (k : String) (values : List Value) :
    Except CompileError (List Pred) :=
  if strStartsWith k ("_gt_") then compileComp table (strDrop k 4) Pred.gt values
  else if strStartsWith k ("_gte_") then compileComp table (strDrop k 5) Pred.gte values
  else if strStartsWith k ("_lt_") then compileComp table (strDrop k 4) Pred.lt values
  else if strStartsWith k ("_lte_") then compileComp table (strDrop k 5) Pred.lte values
  else if strStartsWith k ("_like_") then compileComp table (strDrop k 6) Pred.like values
  else
    if table.contains k then .ok [Pred.inList k values]
    else .error (.attributeError k)

/-- The filter loop of the `async_esayapi` variant's `query`
(src/async_esayapi/dao.py lines 78-98): `if not values: continue` skips
every falsy value — Python `None` and the empty list alike, both
modelled as `[]`. -/
def esayapiFilter (table : Table) : List (String × List Value) → Except CompileError (List Pred)
  | [] => .ok []
  | kv :: rest =>
    if kv.2.isEmpty then esayapiFilter table rest
    else
      match esayapiCompileKey table kv.1 kv.2 with
      | .error e => .error e
      | .ok ps => (esayapiFilter table rest).map (fun rs => ps ++ rs)

theorem compileKey_comp_empty (table : Table) (k : String)
    (hc : opClass k = OpClass.gt ∨ opClass k = OpClass.gte ∨ opClass k = OpClass.lt ∨
      opClass k = OpClass.lte ∨ opClass k = OpClass.likeOp) :
    compileKey table k (FilterVal.list []) = .ok [] := by
  unfold compileKey opClass at *
  split_ifs at hc ⊢
  all_goals first | rfl | simp_all [asValues]

theorem compileKey_in_empty (table : Table) (k : String)
    (hin : opClass k = OpClass.inOp) (hcol : table.contains (strDrop k 4) = true) :
    compileKey table k (FilterVal.list []) = .ok [Pred.inList (strDrop k 4) []] := by
  unfold compileKey opClass at *
  split_ifs at hin ⊢
  all_goals simp_all [asValues]

theorem compileKey_plain_empty (table : Table) (k : String)
    (hp : opClass k = OpClass.plain) (hcol : table.contains k = true) :
    compileKey table k (FilterVal.list []) = .error CompileError.indexError := by
  unfold compileKey opClass at *
  split_ifs at hp ⊢
  all_goals simp_all [asValues]

/-- Counterexample to C9 as frozen: in `search_sql` an unprefixed key
with an empty value list is not skipped — `values[0]` raises
`IndexError`, so compilation is not total on empty value lists. -/
theorem empty_value_counterexample :
    search_sql [("x")] [(("x"), FilterVal.list [])] =
      .error CompileError.indexError := by
  decide

/-- C9 (amended): in the `async_esayapi` variant's filter loop, a key
with an empty/None value list is skipped outright (`if not values:
continue`) — no predicate, no failure. In `search_sql`
(`async_easyapi`), only the comparison/like prefixes skip an empty list;
an `_in_` key contributes an empty IN predicate over the known column,
and an unprefixed key raises `IndexError`. -/
theorem empty_value_handling (table : Table) (rest : List (String × List Value))
    (restQ : List (String × FilterVal)) (k kc kin kp : String)
    (hc : opClass kc = OpClass.gt ∨ opClass kc = OpClass.gte ∨ opClass kc = OpClass.lt ∨
      opClass kc = OpClass.lte ∨ opClass kc = OpClass.likeOp)
    (hin : opClass kin = OpClass.inOp) (hincol : table.contains (strDrop kin 4) = true)
    (hp : opClass kp = OpClass.plain) (hpcol : table.contains kp = true) :
    esayapiFilter table ((k, ([] : List Value)) :: rest) = esayapiFilter table rest ∧
    search_sql table ((kc, FilterVal.list []) :: restQ) = search_sql table restQ ∧
    search_sql table ((kin, FilterVal.list []) :: restQ) =
      (search_sql table restQ).map (fun rs => Pred.inList (strDrop kin 4) [] :: rs) ∧
    search_sql table ((kp, FilterVal.list []) :: restQ) =
      .error CompileError.indexError := by
  refine ⟨rfl, ?_, ?_, ?_⟩
  · rw [show search_sql table ((kc, FilterVal.list []) :: restQ) =
      match compileKey table kc (FilterVal.list []) with
      | .error e => .error e
      | .ok ps => (search_sql table restQ).map (fun rs => ps ++ rs) from rfl]
    rw [compileKey_comp_empty table kc hc]
    cases hres : search_sql table restQ with
    | error e => simp [Except.map]
    | ok rs => simp [Except.map]
  · rw [show search_sql table ((kin, FilterVal.list []) :: restQ) =
      match compileKey table kin (FilterVal.list []) with
      | .error e => .error e
      | .ok ps => (search_sql table restQ).map (fun rs => ps ++ rs) from rfl]
    rw [compileKey_in_empty table kin hin hincol]
    cases hres : search_sql table restQ with
    | error e => simp [Except.map]
    | ok rs => simp [Except.map]
  · rw [show search_sql table ((kp, FilterVal.list []) :: restQ) =
      match compileKey table kp (FilterVal.list []) with
      | .error e => .error e
      | .ok ps => (search_sql table restQ).map (fun rs => ps ++ rs) from rfl]
    rw [compileKey_plain_empty table kp hp hpcol]

/-- Witness for C9 (amended): the esayapi loop skips `{y: []}`, and
`search_sql` skips `{_gt_x: []}`. -/
theorem empty_value_handling_witness :
    esayapiFilter [("x")] [(("y"), ([] : List Value))] = Except.ok [] ∧
    search_sql [("x")] [(("_gt_x"), FilterVal.list [])] = Except.ok [] := by
  have h := empty_value_handling [("x")] [] [] ("y") ("_gt_x") ("_in_x") ("x")
    (by decide) (by decide) (by decide) (by decide) (by decide)
  exact ⟨h.1.trans rfl, h.2.1.trans rfl⟩

/-! ## C5 — transaction scope -/

/-- The observable resource actions of `Transaction.__aexit__`. -/
inductive TxAction where
  | commit | rollback | close
deriving DecidableEq, Repr

/-- Which exception (if any) propagates out of the `async with` block. -/
inductive ExitExc where
  | noExc | bodyExc | commitExc | rollbackExc
deriving DecidableEq, Repr

/-- The method `Transaction.__aexit__` (src/async_easyapi/dao.py lines 20-27)
together with Python's context-manager semantics: the method ignores its
`exc_type/exc/tb` arguments and unconditionally runs
`try: commit / except: rollback; raise / finally: close`; because it
returns `None`, a pending body exception still propagates afterwards.
`excPending` says whether the body raised; `commitFails` and
`rollbackFails` say whether those driver calls raise. -/
def transactionAexit (excPending commitFails rollbackFails : Bool) :
    List TxAction × ExitExc :=
  if commitFails then
    if rollbackFails then ([.commit, .rollback, .close], .rollbackExc)
    else ([.commit, .rollback, .close], .commitExc)
  else ([.commit, .close], if excPending then .bodyExc else .noExc)

/-- C5's rollback-on-body-failure clause is wrong about the code: when
the body raises and the commit succeeds, `__aexit__` still commits — it
never consults `exc_type` — and no rollback happens on that path (the
actions are exactly commit, then close). -/
theorem transactionAexit_commits_despite_body_exception :
    transactionAexit true false false =
      ([TxAction.commit, TxAction.close], ExitExc.bodyExc) ∧
    TxAction.rollback ∉ (transactionAexit true false false).1 := by
  decide

/-! ## C6 — controller error translation -/

/-- The driver-level failures the controller catches
(`OperationalError`, `IntegrityError`, `DataError`), each carrying its
message. -/
inductive DriverError where
  | operationalError : String → DriverError
  | integrityError : String → DriverError
  | dataError : String → DriverError
deriving DecidableEq, Repr

/-- Python `str(e)`. -/
def driverMsg : DriverError → String
  | .operationalError m => m
  | .integrityError m => m
  | .dataError m => m

/-- The error `BusinessError(code=..., http_code=..., err_info=...)`. -/
structure BusinessError where
  code : Nat
  httpCode : Nat
  errInfo : String
deriving DecidableEq, Repr

/-- The uniform error every `except` clause of `ControllerMetaClass`
constructs: `BusinessError(code=500, http_code=500, err_info=str(e))`. -/
def uniformError (e : DriverError) : BusinessError :=
  { code := 500, httpCode := 500, errInfo := driverMsg e }

/-- The method `ControllerMetaClass.get` (src/async_easyapi/controller.py lines
14-27): query on the id, translate driver failures, `None` on an
empty result, else the first row. -/
def controllerGet (daoRes : Except DriverError (List Row)) :
    Except BusinessError (Option Row) :=
  match daoRes with
  | .error e => .error (uniformError e)
  | .ok data => match data with
    | [] => .ok none
    | d :: _ => .ok (some d)

/-- The method `ControllerMetaClass.query` (lines 29-42): gather of the dao query
and the companion count; a failure of either is translated. -/
def controllerQuery (qres : Except DriverError (List Row))
    (cres : Except DriverError Int) : Except BusinessError (List Row × Int) :=
  match qres with
  | .error e => .error (uniformError e)
  | .ok rows => match cres with
    | .error e => .error (uniformError e)
    | .ok n => .ok (rows, n)

/-- The method `ControllerMetaClass.insert` (lines 44-58): validate (a `some`
validator result raises `code=500, http_code=200`), then insert with
driver failures translated. -/
def controllerInsert (validatorErr : Option String)
    (daoRes : Except DriverError Nat) : Except BusinessError Nat :=
  match validatorErr with
  | some err => .error { code := 500, httpCode := 200, errInfo := err }
  | none => match daoRes with
    | .error e => .error (uniformError e)
    | .ok newId => .ok newId

/-- The method `ControllerMetaClass.update` (lines 60-76): validate, then update on
the id with driver failures translated. -/
def controllerUpdate (validatorErr : Option String)
    (daoRes : Except DriverError Nat) : Except BusinessError Nat :=
  match validatorErr with
  | some err => .error { code := 500, httpCode := 200, errInfo := err }
  | none => match daoRes with
    | .error e => .error (uniformError e)
    | .ok n => .ok n

/-- The method `ControllerMetaClass.delete` (lines 78-89): delete on the id
with driver failures translated. -/
def controllerDelete (daoRes : Except DriverError Nat) :
    Except BusinessError Nat :=
  match daoRes with
  | .error e => .error (uniformError e)
  | .ok n => .ok n

/-- C6: every façade operation turns any driver failure into the single
uniform `BusinessError` carrying `code = 500` and `http_code = 500`
(with the driver message as `err_info`), so no driver-specific failure
type crosses the controller boundary. -/
theorem controller_uniform_errors (e : DriverError) (rows : List Row)
    (cres : Except DriverError Int) :
    (uniformError e).code = 500 ∧ (uniformError e).httpCode = 500 ∧
    controllerGet (.error e) = .error (uniformError e) ∧
    controllerQuery (.error e) cres = .error (uniformError e) ∧
    controllerQuery (.ok rows) (.error e) = .error (uniformError e) ∧
    controllerInsert none (.error e) = .error (uniformError e) ∧
    controllerUpdate none (.error e) = .error (uniformError e) ∧
    controllerDelete (.error e) = .error (uniformError e) :=
  ⟨rfl, rfl, rfl, rfl, rfl, rfl, rfl, rfl⟩

/-! ## C10 — transcoder round trip (easyapi variant) -/

/-- Python truthiness of a scalar value. -/
def valueTruthy : Value → Bool
  | .null => false
  | .bool b => b
  | .int n => decide (n ≠ 0)
  | .str s => !s.data.isEmpty
  | .time _ => true

/-- The audit columns dropped by the sync variant's formatter. -/
def ignoreColumns : List String := [("created_at"), ("deleted_at"), ("updated_at")]

/-- The method `BusinessBaseDao.reformatter` of the synchronous `easyapi` variant
(src/easyapi/dao.py lines 292-305): `unscoped` is read from the data
dict itself (`data.get('unscoped', False)`), and `deleted_at = None` is
injected unless unscoped is truthy or `deleted_at` is already a key. -/
def easyReformatter (data : Row) : Row :=
  if !(match rowGet data ("unscoped") with
        | some v => valueTruthy v
        | none => false) &&
      !(data.any (fun kv => kv.1 == ("deleted_at"))) then
    data ++ [(("deleted_at"), Value.null)]
  else data

/-- The method `BusinessBaseDao.formatter` of the synchronous `easyapi` variant
(src/easyapi/dao.py lines 278-290): drop the audit columns, keeping
order, then `type_to_json`. -/
def easyFormatter (data : Row) : Row :=
  typeToJsonRecord (data.filter (fun kv => !(ignoreColumns.contains kv.1)))

/-- C10: for a record with no audit columns (and JSON-safe values, on
which `type_to_json` is the identity), the model-to-storage-to-model
round trip returns the record unchanged. -/
theorem formatter_reformatter_roundtrip (r : Row)
    (haudit : ∀ kv ∈ r, kv.1 ∉ ignoreColumns)
    (hsafe : ∀ kv ∈ r, jsonSafe kv.2 = true) :
    easyFormatter (easyReformatter r) = r := by
  have hfil : r.filter (fun kv => !(ignoreColumns.contains kv.1)) = r := by
    rw [List.filter_eq_self]
    intro kv hkv
    simpa using haudit kv hkv
  have hjson : typeToJsonRecord r = r := by
    unfold typeToJsonRecord
    have hmap : r.map (fun kv => (kv.1, typeToJson kv.2)) = r.map id := by
      apply List.map_congr_left
      intro kv hkv
      have ht : typeToJson kv.2 = kv.2 := by
        have := hsafe kv hkv
        cases hv : kv.2 <;> simp_all [typeToJson, jsonSafe]
      rw [ht]
      rfl
    rw [hmap, List.map_id]
  unfold easyFormatter easyReformatter
  split_ifs with hc
  · rw [List.filter_append]
    have h2 : List.filter (fun kv => !(ignoreColumns.contains kv.1))
        ([(("deleted_at"), Value.null)] : Row) = [] := by decide
    rw [h2, List.append_nil, hfil]
    exact hjson
  · rw [hfil]
    exact hjson

/-- Witness for C10 at a concrete audit-free, JSON-safe record. -/
theorem formatter_reformatter_roundtrip_witness :
    easyFormatter (easyReformatter [(("id"), Value.int 1), (("name"), Value.str ("a"))]) =
      [(("id"), Value.int 1), (("name"), Value.str ("a"))] :=
  formatter_reformatter_roundtrip [(("id"), Value.int 1), (("name"), Value.str ("a"))]
    (by decide) (by decide)

end AsyncEasyapi
